import Mathlib

set_option maxHeartbeats 1000000
set_option maxRecDepth 100000

/-! Formal model of the coin-merging utility in `src/main.ts`.

The remote RPC node is modelled by oracles: a paginated coin-listing
server (a function from request ordinal to a page or an error — the
pagination cursor in the source is opaque and only round-tripped back
to the server, so the ordinal of the request determines the page found
there), a balance-query response, and a transaction-submission oracle
(a function from submission ordinal to a digest or an error).  Loops
that the source runs unboundedly are modelled with an explicit fuel
parameter: a result of `none` means the loop did not finish within the
given fuel, and divergence is expressed as `none` for every fuel. -/

/-- Coin object identifier (an opaque string in the source). -/
abbrev ObjectId := String

/-- Error value thrown by a remote call. -/
abbrev Err := String

/-- Transaction digest returned by a successful submission. -/
abbrev Digest := String

/-- One page returned by `client.getCoins` (`main.ts` line 30): the coin
object ids of the page, the `hasNextPage` flag and the opaque
`nextCursor`. -/
structure CoinPage where
  data : List ObjectId
  hasNextPage : Bool
  nextCursor : Option String
deriving DecidableEq, Repr

/-- One entry of the `client.getAllBalances` response (`main.ts` line 11).
The source reads only `coinType` and ignores the balance amount. -/
structure Balance where
  coinType : String
  totalBalance : Nat
deriving DecidableEq, Repr

/-- Hard cap on fetched objects (`main.ts` line 38: `allCoins.length >= 5000`). -/
def objectCap : Nat := 5000

/-- Page size requested from the server (`main.ts` line 34: `limit: 50`). -/
def pageLimit : Nat := 50

/-- Model of `getOwnedTokens` (`main.ts` lines 9-21): map each balance
entry of the response to its `coinType`; on an error of the remote call,
log and return the empty list. -/
def getOwnedTokens : Except Err (List Balance) → List String
  | .ok balances => balances.map (fun b => b.coinType)
  | .error _ => []

/-- The `while (hasMore)` pagination loop inside `getAllTokenObjectIds`
(`main.ts` lines 25-44).  Arguments after the server: remaining fuel,
ordinal of the next request, accumulated `allCoins`.  Each iteration
appends the page to the accumulator, breaks once the accumulated length
reaches `objectCap`, and otherwise continues exactly when the page said
`hasNextPage`.  A thrown error of `client.getCoins` surfaces as
`some (.error e)`; `none` means fuel ran out before the loop finished. -/
def fetchCoinPages (server : Nat → Except Err CoinPage) :
    Nat → Nat → List ObjectId → Option (Except Err (List ObjectId))
  | 0, _, _ => none
  | fuel + 1, n, acc =>
    match server n with
    | .error e => some (.error e)
    | .ok page =>
      if objectCap ≤ (acc ++ page.data).length then some (.ok (acc ++ page.data))
      else if page.hasNextPage then fetchCoinPages server fuel (n + 1) (acc ++ page.data)
      else some (.ok (acc ++ page.data))

/-- Model of `getAllTokenObjectIds` (`main.ts` lines 23-51): run the
pagination loop; the surrounding `try`/`catch` turns any error into the
empty list (`main.ts` lines 47-50). -/
def getAllTokenObjectIds (server : Nat → Except Err CoinPage) (fuel : Nat) :
    Option (List ObjectId) :=
  match fetchCoinPages server fuel 0 [] with
  | none => none
  | some (.ok coins) => some coins
  | some (.error _) => some []

/-- Observable events of one `mergeCoinObjects` run: a submitted merge
transaction (the list of `txb.mergeCoins(primary, coin)` commands built
at `main.ts` lines 84-92, each pairing the primary coin with one merged
coin), or the `setTimeout` pause of `main.ts` line 107 with its duration
in milliseconds. -/
inductive MEv where
  | submitted (tx : List (ObjectId × ObjectId))
  | delayed (ms : Nat)
deriving DecidableEq, Repr

/-- Transaction built for one batch (`main.ts` lines 84-92): the first
element of the batch is the primary coin and every later element is
merged into it by one `mergeCoins` command, in order. -/
def buildTx : List ObjectId → List (ObjectId × ObjectId)
  | [] => []
  | primary :: rest => rest.map (fun c => (primary, c))

/-- The batching `for` loop of `mergeCoinObjects` (`main.ts` lines
80-110).  Arguments after the submission oracle, the id list and the
batch size: remaining fuel, loop index `i`, ordinal of the next
submission, accumulated event trace.  Each iteration slices
`ids.slice(i, min(i + B, ids.length))`; a batch of more than one element
is submitted (an error of `signAndExecuteTransaction` surfaces as
`some (.error e)`) and, when `i + B < ids.length`, followed by a 1000 ms
pause; then the index advances by `B`.  `none` means fuel ran out. -/
def mergeLoop (submitF : Nat → Except Err Digest) (ids : List ObjectId) (B : Nat) :
    Nat → Nat → Nat → List MEv → Option (Except Err (List MEv))
  | 0, _, _, _ => none
  | fuel + 1, i, c, evs =>
    if i < ids.length then
      if 1 < ((ids.drop i).take B).length then
        match submitF c with
        | .error e => some (.error e)
        | .ok _ =>
          mergeLoop submitF ids B fuel (i + B) (c + 1)
            (evs ++ [MEv.submitted (buildTx ((ids.drop i).take B))] ++
              if i + B < ids.length then [MEv.delayed 1000] else [])
      else
        mergeLoop submitF ids B fuel (i + B) c evs
    else
      some (.ok evs)

/-- Body of the `try` block of `mergeCoinObjects` (`main.ts` lines
59-112): fetch the ids, return with no events when at most one id was
found (lines 68-77 check `length <= 1` twice with no further effect),
otherwise run the batching loop. -/
def mergeBody (server : Nat → Except Err CoinPage) (submitF : Nat → Except Err Digest)
    (B fuel listFuel : Nat) : Option (Except Err (List MEv)) :=
  match getAllTokenObjectIds server listFuel with
  | none => none
  | some ids =>
    if ids.length ≤ 1 then some (.ok [])
    else mergeLoop submitF ids B fuel 0 0 []

/-- Model of `mergeCoinObjects` (`main.ts` lines 53-118): the `catch`
clause at lines 114-117 logs the error and rethrows it unchanged. -/
def mergeCoinObjects (server : Nat → Except Err CoinPage) (submitF : Nat → Except Err Digest)
    (B fuel listFuel : Nat) : Option (Except Err (List MEv)) :=
  match mergeBody server submitF B fuel listFuel with
  | some (.error e) => some (.error e)
  | r => r

/-- Predicate picking out submission events. -/
def MEv.isSubmit : MEv → Bool
  | .submitted _ => true
  | .delayed _ => false

/-- Predicate picking out pause events. -/
def MEv.isWait : MEv → Bool
  | .submitted _ => false
  | .delayed _ => true

/-- Number of merge transactions submitted in a trace. -/
def subCount (evs : List MEv) : Nat := evs.countP MEv.isSubmit

/-- Number of inter-batch pauses in a trace. -/
def waitCount (evs : List MEv) : Nat := evs.countP MEv.isWait

/-- The transactions submitted in a trace, in order. -/
def submittedTxs (evs : List MEv) : List (List (ObjectId × ObjectId)) :=
  evs.filterMap (fun e => match e with | .submitted tx => some tx | .delayed _ => none)

/-- The successive slices `ids.slice(i, min(i + B, ids.length))` taken by
the batching loop for `i = 0, B, 2B, …` (`main.ts` lines 80-81), written
as a recursion on the list. -/
def batches (B : Nat) : List ObjectId → List (List ObjectId)
  | [] => []
  | a :: l => (a :: l.take (B - 1)) :: batches B (l.drop (B - 1))
termination_by l => l.length
decreasing_by simp only [List.length_drop, List.length_cons]; omega

/-- Event trace produced by a run of the batching loop in which every
submission succeeds, batch by batch: a batch of more than one element
yields one submission, followed by a 1000 ms pause unless the loop index
has reached the end of the id list, which for positive batch size means
the batch is the last one. -/
def traceOf : List (List ObjectId) → List MEv
  | [] => []
  | b :: rest =>
    (if 1 < b.length then
      MEv.submitted (buildTx b) :: (if rest = [] then [] else [MEv.delayed 1000])
    else []) ++ traceOf rest

/-- The `for (const token of ownedTokens)` loop of `main` (`main.ts`
lines 141-148).  The outcome oracle gives, for each token ordinal, the
result of its `mergeCoinObjects` call.  Arguments: number of tokens
still to process, ordinal of the next token, ordinals already processed.
The loop stops at the first error, which escapes `main` (no per-token
handler in the source); the result pairs the processed ordinals with the
final outcome. -/
def runTokens (outcomes : Nat → Option (Except Err (List MEv))) :
    Nat → Nat → List Nat → Option (List Nat × Except Err Unit)
  | 0, _, done => some (done, .ok ())
  | k + 1, j, done =>
    match outcomes j with
    | none => none
    | some (.error e) => some (done ++ [j], .error e)
    | some (.ok _) => runTokens outcomes k (j + 1) (done ++ [j])

/-- Model of `main` (`main.ts` lines 120-149): list the owned token
types; when none were found, log and return; otherwise merge each token
type sequentially. -/
def mainRun (balResp : Except Err (List Balance))
    (outcomes : Nat → Option (Except Err (List MEv))) :
    Option (List Nat × Except Err Unit) :=
  if (getOwnedTokens balResp).length = 0 then some ([], .ok ())
  else runTokens outcomes (getOwnedTokens balResp).length 0 []

/-- The handler `main().catch(console.error)` at `main.ts` line 151:
`console.error` logs the rejection reason and returns normally, so the
resulting top-level operation always settles successfully. -/
def catchConsoleError : Except Err Unit → Except Err Unit
  | .error _ => .ok ()
  | r => r

/-- Node runtime exit policy the spec itself appeals to: the process
exits non-zero only when the top-level operation is left rejected and
unhandled; when the final settled state is a success, it exits 0. -/
def processExitCode : Except Err Unit → Nat
  | .ok _ => 0
  | .error _ => 1

/-- Exit code of a whole run: the result of `main` with the line-151
rejection handler attached, fed to the runtime exit policy.  `none`
means some inner loop ran out of fuel. -/
def programExitCode (balResp : Except Err (List Balance))
    (outcomes : Nat → Option (Except Err (List MEv))) : Option Nat :=
  (mainRun balResp outcomes).map (fun p => processExitCode (catchConsoleError p.2))

/-! Concrete inputs used to instantiate the theorems below. -/

/-- A server that answers every request with a 49-item page announcing a
further page. -/
def exServer49 : Nat → Except Err CoinPage :=
  fun _ => .ok ⟨List.replicate 49 "x", true, none⟩

/-- A server whose second request fails after a successful first page. -/
def exServerErr : Nat → Except Err CoinPage :=
  fun n => if n = 0 then .ok ⟨["a", "b"], true, none⟩ else .error "net"

/-- A server that always sends one further item. -/
def exServerOne : Nat → Except Err CoinPage :=
  fun _ => .ok ⟨["x"], true, none⟩

/-- A server whose first page already reports no further page. -/
def exServerEnd : Nat → Except Err CoinPage :=
  fun _ => .ok ⟨["a", "b"], false, none⟩

/-- A server that forever sends empty pages announcing further pages. -/
def exServerEmpty : Nat → Except Err CoinPage :=
  fun _ => .ok ⟨[], true, none⟩

/-- A server holding exactly the five ids `a`…`e` on a single page. -/
def exServer5 : Nat → Except Err CoinPage :=
  fun _ => .ok ⟨["a", "b", "c", "d", "e"], false, none⟩

/-- A server holding exactly the two ids `a`, `b` on a single page. -/
def exServer2 : Nat → Except Err CoinPage :=
  fun _ => .ok ⟨["a", "b"], false, none⟩

/-- A server holding exactly the four ids `a`…`d` on a single page. -/
def exServer4 : Nat → Except Err CoinPage :=
  fun _ => .ok ⟨["a", "b", "c", "d"], false, none⟩

/-- A server holding 501 equal ids on a single page. -/
def exServer501 : Nat → Except Err CoinPage :=
  fun _ => .ok ⟨List.replicate 501 "c", false, none⟩

/-- A server holding 1200 equal ids on a single page. -/
def exServer1200 : Nat → Except Err CoinPage :=
  fun _ => .ok ⟨List.replicate 1200 "c", false, none⟩

/-- A submission oracle that always succeeds. -/
def okSubmit : Nat → Except Err Digest := fun _ => .ok "digest"

/-- A submission oracle whose second submission throws. -/
def failSubmit1 : Nat → Except Err Digest :=
  fun n => if n = 0 then .ok "digest" else .error "boom"

/-- A balance response with a duplicated coin type and a zero balance. -/
def exBalDup : List Balance := [⟨"A", 0⟩, ⟨"A", 5⟩]

/-- A balance response listing two held token types. -/
def exBal2 : List Balance := [⟨"T1", 1⟩, ⟨"T2", 1⟩]

/-- Per-token outcomes whose first token's merge run throws. -/
def exOutcomesFail0 : Nat → Option (Except Err (List MEv)) :=
  fun n => if n = 0 then some (.error "boom") else some (.ok [])

/-! Lemmas about the pagination loop. -/

/-- Unfolding: a request that throws ends the loop with that error. -/
theorem fetchCoinPages_succ_err (server : Nat → Except Err CoinPage)
    (fuel n : Nat) (acc : List ObjectId) (e : Err) (hs : server n = .error e) :
    fetchCoinPages server (fuel + 1) n acc = some (.error e) := by
  simp [fetchCoinPages, hs]

/-- Unfolding: a successful request appends its page, breaks at the cap,
and otherwise continues exactly when the page said `hasNextPage`. -/
theorem fetchCoinPages_succ_ok (server : Nat → Except Err CoinPage)
    (fuel n : Nat) (acc : List ObjectId) (page : CoinPage) (hs : server n = .ok page) :
    fetchCoinPages server (fuel + 1) n acc =
      (if objectCap ≤ (acc ++ page.data).length then some (.ok (acc ++ page.data))
       else if page.hasNextPage then fetchCoinPages server fuel (n + 1) (acc ++ page.data)
       else some (.ok (acc ++ page.data))) := by
  simp [fetchCoinPages, hs]

/-- Any list the pagination loop returns from a sub-cap accumulator is
shorter than the cap plus one page. -/
theorem fetch_ok_length_lt (server : Nat → Except Err CoinPage)
    (hpages : ∀ n p, server n = .ok p → p.data.length ≤ pageLimit) :
    ∀ fuel n acc l, acc.length < objectCap →
      fetchCoinPages server fuel n acc = some (.ok l) →
      l.length < objectCap + pageLimit := by
  intro fuel
  induction fuel with
  | zero => intro n acc l _ h; simp [fetchCoinPages] at h
  | succ fuel ih =>
    intro n acc l hacc h
    cases hs : server n with
    | error e => rw [fetchCoinPages_succ_err server fuel n acc e hs] at h; simp at h
    | ok page =>
      rw [fetchCoinPages_succ_ok server fuel n acc page hs] at h
      have hp := hpages n page hs
      by_cases hcap : objectCap ≤ (acc ++ page.data).length
      · rw [if_pos hcap] at h
        simp only [Option.some.injEq, Except.ok.injEq] at h
        subst h
        rw [List.length_append]
        omega
      · rw [if_neg hcap] at h
        by_cases hnext : page.hasNextPage
        · rw [if_pos hnext] at h
          refine ih (n + 1) (acc ++ page.data) l ?_ h
          omega
        · rw [if_neg hnext] at h
          simp only [Option.some.injEq, Except.ok.injEq] at h
          subst h
          omega

/-- Running the 49-a-page server from an accumulator that is exactly
`49 * k` short of 5047 yields a 5047-element result. -/
theorem exServer49_run : ∀ k n acc, acc.length + 49 * k = 5047 → 1 ≤ k →
    ∃ l, fetchCoinPages exServer49 k n acc = some (.ok l) ∧ l.length = 5047 := by
  intro k
  induction k with
  | zero => intro n acc _ h; omega
  | succ k ih =>
    intro n acc hacc _
    have hs : exServer49 n = .ok ⟨List.replicate 49 "x", true, none⟩ := rfl
    rw [fetchCoinPages_succ_ok exServer49 k n acc _ hs]
    have hlen : (acc ++ List.replicate 49 "x").length = acc.length + 49 := by
      simp
    by_cases hk : k = 0
    · subst hk
      have hge : objectCap ≤ (acc ++ List.replicate 49 "x").length := by
        rw [hlen]; simp only [objectCap]; omega
      rw [if_pos hge]
      exact ⟨_, rfl, by rw [hlen]; omega⟩
    · have hlt : ¬ objectCap ≤ (acc ++ List.replicate 49 "x").length := by
        rw [hlen]; simp only [objectCap]; omega
      rw [if_neg hlt]
      simp only [if_pos rfl]
      exact ih (n + 1) (acc ++ List.replicate 49 "x") (by rw [hlen]; omega) (by omega)

/-- When every page announcing a further page is nonempty, the loop
finishes within `objectCap` iterations from any sub-cap accumulator
whose shortfall the fuel covers. -/
theorem fetch_isSome_of_gain (server : Nat → Except Err CoinPage)
    (hgain : ∀ n p, server n = .ok p → p.hasNextPage = true → p.data ≠ []) :
    ∀ fuel n acc, acc.length < objectCap → objectCap ≤ acc.length + fuel →
      (fetchCoinPages server fuel n acc).isSome = true := by
  intro fuel
  induction fuel with
  | zero => intro n acc h1 h2; omega
  | succ fuel ih =>
    intro n acc h1 h2
    cases hs : server n with
    | error e => rw [fetchCoinPages_succ_err server fuel n acc e hs]; rfl
    | ok page =>
      rw [fetchCoinPages_succ_ok server fuel n acc page hs]
      by_cases hcap : objectCap ≤ (acc ++ page.data).length
      · rw [if_pos hcap]; rfl
      · rw [if_neg hcap]
        by_cases hnext : page.hasNextPage
        · rw [if_pos hnext]
          have hne : page.data ≠ [] := hgain n page hs hnext
          have hpos : 0 < page.data.length := List.length_pos.mpr hne
          refine ih (n + 1) (acc ++ page.data) (by omega) ?_
          rw [List.length_append]
          omega
        · rw [if_neg hnext]; rfl

/-- When the page at offset `d` from the current request reports no
further page, the loop finishes within `d + 1` iterations. -/
theorem fetch_isSome_of_endPage (server : Nat → Except Err CoinPage) :
    ∀ d n acc p, server (n + d) = .ok p → p.hasNextPage = false →
      (fetchCoinPages server (d + 1) n acc).isSome = true := by
  intro d
  induction d with
  | zero =>
    intro n acc p hs hend
    rw [fetchCoinPages_succ_ok server 0 n acc p hs]
    by_cases hcap : objectCap ≤ (acc ++ p.data).length
    · rw [if_pos hcap]; rfl
    · rw [if_neg hcap, hend]; rfl
  | succ d ih =>
    intro n acc p hs hend
    cases hs0 : server n with
    | error e => rw [fetchCoinPages_succ_err server (d + 1) n acc e hs0]; rfl
    | ok page =>
      rw [fetchCoinPages_succ_ok server (d + 1) n acc page hs0]
      by_cases hcap : objectCap ≤ (acc ++ page.data).length
      · rw [if_pos hcap]; rfl
      · rw [if_neg hcap]
        by_cases hnext : page.hasNextPage
        · rw [if_pos hnext]
          refine ih (n + 1) (acc ++ page.data) p ?_ hend
          rw [show n + 1 + d = n + (d + 1) by omega]
          exact hs
        · rw [if_neg hnext]; rfl

/-- Against a server that forever sends empty pages announcing further
pages, the loop never finishes, whatever the fuel. -/
theorem fetch_none_of_empty (server : Nat → Except Err CoinPage)
    (hempty : ∀ n, ∃ c, server n = .ok ⟨[], true, c⟩) :
    ∀ fuel n acc, acc.length < objectCap →
      fetchCoinPages server fuel n acc = none := by
  intro fuel
  induction fuel with
  | zero => intro n acc _; rfl
  | succ fuel ih =>
    intro n acc h1
    obtain ⟨c, hc⟩ := hempty n
    rw [fetchCoinPages_succ_ok server fuel n acc _ hc]
    have hcap : ¬ objectCap ≤ (acc ++ ([] : List ObjectId)).length := by
      simp only [List.append_nil]
      omega
    rw [if_neg hcap]
    simp only [if_pos rfl]
    exact ih (n + 1) (acc ++ []) (by simpa using h1)

/-! Lemmas about the batch partition. -/

/-- The loop slices nothing exactly when the id list is empty. -/
theorem batches_eq_nil_iff (B : Nat) (l : List ObjectId) :
    batches B l = [] ↔ l = [] := by
  cases l with
  | nil => simp [batches]
  | cons a l' => rw [batches]; simp

/-- For positive batch size, the first slice is `l.take B` and the rest
are the slices of `l.drop B`. -/
theorem batches_eq_cons (B : Nat) (hB : 0 < B) (l : List ObjectId) (hl : l ≠ []) :
    batches B l = l.take B :: batches B (l.drop B) := by
  cases l with
  | nil => exact absurd rfl hl
  | cons a l' =>
    obtain ⟨B', rfl⟩ : ∃ B', B = B' + 1 := ⟨B - 1, by omega⟩
    rw [batches]
    simp

/-- The slices concatenate back to the original list: the partition is
contiguous and order-preserving. -/
theorem batches_flatten (B : Nat) (l : List ObjectId) :
    (batches B l).flatten = l := by
  induction l using batches.induct B with
  | case1 => rw [batches]; rfl
  | case2 a l ih =>
    rw [batches]
    simp only [List.flatten_cons]
    rw [ih]
    simp

/-- For positive batch size every slice is nonempty and no longer
than the batch size. -/
theorem batches_mem_length (B : Nat) (hB : 0 < B) (l : List ObjectId) :
    ∀ b ∈ batches B l, 0 < b.length ∧ b.length ≤ B := by
  induction l using batches.induct B with
  | case1 => rw [batches]; intro b hb; simp at hb
  | case2 a l ih =>
    rw [batches]
    intro b hb
    rcases List.mem_cons.mp hb with hb | hb
    · subst hb
      simp only [List.length_cons, List.length_take]
      omega
    · exact ih b hb

/-- The number of slices is `⌈l.length / B⌉`, written in natural-number
arithmetic as `(l.length + B - 1) / B`. -/
theorem batches_length (B : Nat) (hB : 0 < B) (l : List ObjectId) :
    (batches B l).length = (l.length + B - 1) / B := by
  induction l using batches.induct B with
  | case1 =>
    rw [batches]
    simp only [List.length_nil]
    rw [Nat.div_eq_of_lt (by omega)]
  | case2 a l ih =>
    rw [batches, List.length_cons, ih, List.length_drop, List.length_cons]
    have hsucc : l.length + 1 + B - 1 = l.length + B := by omega
    rw [hsucc, Nat.add_div_right _ hB]
    by_cases hm : l.length ≤ B - 1
    · have h1 : l.length - (B - 1) = 0 := by omega
      rw [h1, Nat.div_eq_of_lt (by omega), Nat.div_eq_of_lt (by omega : l.length < B)]
    · have h2 : l.length - (B - 1) + B - 1 = l.length := by omega
      rw [h2]

/-- Every slice except possibly the last has length exactly `B`. -/
theorem batches_dropLast_length (B : Nat) (hB : 0 < B) (l : List ObjectId) :
    ∀ b ∈ (batches B l).dropLast, b.length = B := by
  induction l using batches.induct B with
  | case1 => rw [batches]; intro b hb; simp at hb
  | case2 a l ih =>
    rw [batches]
    intro b hb
    rcases hrest : batches B (l.drop (B - 1)) with _ | ⟨c, rest⟩
    · rw [hrest] at hb; simp at hb
    · rw [hrest, List.dropLast_cons₂] at hb
      rcases List.mem_cons.mp hb with hb | hb
      · subst hb
        have hne : l.drop (B - 1) ≠ [] := by
          intro h0; rw [h0] at hrest; simp [batches] at hrest
        have hlt : B - 1 < l.length := by
          by_contra hcon
          exact hne (List.drop_eq_nil_iff.mpr (by omega))
        simp only [List.length_cons, List.length_take]
        omega
      · exact ih b (by rw [hrest]; exact hb)

/-- Counting slices that get submitted: since every slice is nonempty,
the slices of more than one element are all slices minus the
one-element slices. -/
theorem countP_big_eq (bs : List (List ObjectId))
    (hne : ∀ b ∈ bs, b ≠ ([] : List ObjectId)) :
    bs.countP (fun b => 1 < b.length) = bs.length - bs.countP (fun b => b.length = 1) := by
  induction bs with
  | nil => rfl
  | cons b rest ih =>
    have hb : b ≠ [] := hne b (List.mem_cons_self b rest)
    have hpos : 0 < b.length := List.length_pos.mpr hb
    have hle : rest.countP (fun b => b.length = 1) ≤ rest.length :=
      List.countP_le_length _
    rw [List.countP_cons, List.countP_cons, List.length_cons,
      ih (fun x hx => hne x (List.mem_cons_of_mem b hx))]
    by_cases h1 : b.length = 1
    · simp only [h1]
      norm_num
      omega
    · have h2 : 1 < b.length := by omega
      simp only [h1, h2]
      norm_num
      omega

/-- When every slice but the last has length `B ≥ 2`, at most one slice
is a singleton. -/
theorem countP_one_le_one (B : Nat) (hB2 : 2 ≤ B) :
    ∀ bs : List (List ObjectId), (∀ b ∈ bs.dropLast, b.length = B) →
      bs.countP (fun b => b.length = 1) ≤ 1 := by
  intro bs
  induction bs with
  | nil => intro _; simp
  | cons b rest ih =>
    intro h
    cases rest with
    | nil =>
      by_cases h1 : b.length = 1 <;> simp [List.countP_cons, h1]
    | cons c rest' =>
      have hbB : b.length = B := h b (by rw [List.dropLast_cons₂]; exact List.mem_cons_self _ _)
      have hb1 : ¬ b.length = 1 := by omega
      rw [List.countP_cons]
      simp only [hb1]
      norm_num
      exact ih (fun x hx => h x (by rw [List.dropLast_cons₂]; exact List.mem_cons_of_mem b hx))

/-! Lemmas counting events in a successful trace. -/

/-- One submission per batch of more than one element. -/
theorem subCount_traceOf (bs : List (List ObjectId)) :
    subCount (traceOf bs) = bs.countP (fun b => 1 < b.length) := by
  induction bs with
  | nil => rfl
  | cons b rest ih =>
    rw [traceOf]
    simp only [subCount, List.countP_append, List.countP_cons] at ih ⊢
    by_cases h1 : 1 < b.length
    · by_cases h2 : rest = []
      · subst h2
        simp [h1, MEv.isSubmit, traceOf]
      · simp [h1, h2, MEv.isSubmit, ih]
        omega
    · simp [h1, ih]

/-- One pause per batch of more than one element that is not the last
batch. -/
theorem waitCount_traceOf (bs : List (List ObjectId)) :
    waitCount (traceOf bs) = bs.dropLast.countP (fun b => 1 < b.length) := by
  induction bs with
  | nil => rfl
  | cons b rest ih =>
    rw [traceOf]
    cases rest with
    | nil =>
      by_cases h1 : 1 < b.length <;>
        simp [waitCount, h1, MEv.isWait, List.countP_append, traceOf]
    | cons c rest' =>
      rw [List.dropLast_cons₂, List.countP_cons]
      rw [← ih]
      by_cases h1 : 1 < b.length <;>
        simp [waitCount, h1, MEv.isWait, List.countP_append, List.countP_cons]

/-- The submitted transactions are the built transactions of the batches
of more than one element, in batch order. -/
theorem submittedTxs_traceOf (bs : List (List ObjectId)) :
    submittedTxs (traceOf bs) = (bs.filter (fun b => 1 < b.length)).map buildTx := by
  induction bs with
  | nil => rfl
  | cons b rest ih =>
    rw [traceOf, List.filter_cons]
    simp only [submittedTxs] at ih ⊢
    by_cases h1 : 1 < b.length
    · by_cases h2 : rest = []
      · subst h2
        simp [h1, List.filterMap_append, traceOf]
      · simp [h1, h2, List.filterMap_append, ih]
    · simp [h1, List.filterMap_append, ih]

/-! Lemmas about the batching loop. -/

/-- Unfolding: the loop exits once the index passes the end. -/
theorem mergeLoop_done (submitF : Nat → Except Err Digest) (ids : List ObjectId)
    (B fuel i c : Nat) (evs : List MEv) (hi : ¬ i < ids.length) :
    mergeLoop submitF ids B (fuel + 1) i c evs = some (.ok evs) := by
  rw [mergeLoop, if_neg hi]

/-- Unfolding: a batch of at most one element is skipped. -/
theorem mergeLoop_skip (submitF : Nat → Except Err Digest) (ids : List ObjectId)
    (B fuel i c : Nat) (evs : List MEv) (hi : i < ids.length)
    (hb : ¬ 1 < ((ids.drop i).take B).length) :
    mergeLoop submitF ids B (fuel + 1) i c evs =
      mergeLoop submitF ids B fuel (i + B) c evs := by
  rw [mergeLoop, if_pos hi, if_neg hb]

/-- Unfolding: a successful submission records the transaction, pauses
when the index has not passed the end, and advances. -/
theorem mergeLoop_submit_ok (submitF : Nat → Except Err Digest) (ids : List ObjectId)
    (B fuel i c : Nat) (evs : List MEv) (d : Digest) (hi : i < ids.length)
    (hb : 1 < ((ids.drop i).take B).length) (hs : submitF c = .ok d) :
    mergeLoop submitF ids B (fuel + 1) i c evs =
      mergeLoop submitF ids B fuel (i + B) (c + 1)
        (evs ++ [MEv.submitted (buildTx ((ids.drop i).take B))] ++
          if i + B < ids.length then [MEv.delayed 1000] else []) := by
  rw [mergeLoop, if_pos hi, if_pos hb, hs]

/-- Unfolding: a submission that throws ends the loop with that error. -/
theorem mergeLoop_submit_err (submitF : Nat → Except Err Digest) (ids : List ObjectId)
    (B fuel i c : Nat) (evs : List MEv) (e : Err) (hi : i < ids.length)
    (hb : 1 < ((ids.drop i).take B).length) (hs : submitF c = .error e) :
    mergeLoop submitF ids B (fuel + 1) i c evs = some (.error e) := by
  rw [mergeLoop, if_pos hi, if_pos hb, hs]

/-- Master lemma: with positive batch size and a submission oracle that
always succeeds, the loop from index `i` appends exactly the trace of
the batches of the remaining suffix. -/
theorem mergeLoop_run (submitF : Nat → Except Err Digest) (ids : List ObjectId) (B : Nat)
    (hB : 0 < B) (hok : ∀ n, (submitF n).isOk = true) :
    ∀ fuel i c evs, ids.length - i < fuel →
      mergeLoop submitF ids B fuel i c evs =
        some (.ok (evs ++ traceOf (batches B (ids.drop i)))) := by
  intro fuel
  induction fuel with
  | zero => intro i c evs h; omega
  | succ fuel ih =>
    intro i c evs h
    by_cases hi : i < ids.length
    · have hdropne : ids.drop i ≠ [] := by
        intro h0
        have := List.drop_eq_nil_iff.mp h0
        omega
      rw [batches_eq_cons B hB (ids.drop i) hdropne, List.drop_drop]
      have hnilrest : batches B (ids.drop (i + B)) = [] ↔ ¬ i + B < ids.length := by
        rw [batches_eq_nil_iff, List.drop_eq_nil_iff]
        omega
      by_cases hlen : 1 < ((ids.drop i).take B).length
      · have hokc := hok c
        cases hs : submitF c with
        | error e => rw [hs] at hokc; simp [Except.isOk, Except.toBool] at hokc
        | ok d =>
          rw [mergeLoop_submit_ok submitF ids B fuel i c evs d hi hlen hs]
          rw [ih (i + B) (c + 1) _ (by omega)]
          rw [traceOf]
          by_cases hmore : i + B < ids.length
          · have hrest : ¬ batches B (ids.drop (i + B)) = [] := by
              simp [hnilrest, hmore]
            rw [if_pos hmore, if_pos hlen, if_neg hrest]
            simp
          · have hrest : batches B (ids.drop (i + B)) = [] := hnilrest.mpr hmore
            rw [if_neg hmore, if_pos hlen, if_pos hrest]
            simp [hrest, traceOf]
      · rw [mergeLoop_skip submitF ids B fuel i c evs hi hlen]
        rw [ih (i + B) c evs (by omega)]
        rw [traceOf, if_neg hlen]
        simp
    · rw [mergeLoop_done submitF ids B fuel i c evs hi]
      have hnil : ids.drop i = [] := List.drop_eq_nil_iff.mpr (by omega)
      rw [hnil]
      rw [batches]
      rw [traceOf]
      simp

/-- For positive batch size the batching loop finishes whenever the fuel
exceeds the number of indices left, whatever the submission oracle
answers. -/
theorem mergeLoop_isSome (submitF : Nat → Except Err Digest) (ids : List ObjectId)
    (B : Nat) (hB : 0 < B) :
    ∀ fuel i c evs, ids.length - i < fuel →
      (mergeLoop submitF ids B fuel i c evs).isSome = true := by
  intro fuel
  induction fuel with
  | zero => intro i c evs h; omega
  | succ fuel ih =>
    intro i c evs h
    by_cases hi : i < ids.length
    · by_cases hlen : 1 < ((ids.drop i).take B).length
      · cases hs : submitF c with
        | error e => rw [mergeLoop_submit_err submitF ids B fuel i c evs e hi hlen hs]; rfl
        | ok d =>
          rw [mergeLoop_submit_ok submitF ids B fuel i c evs d hi hlen hs]
          exact ih (i + B) (c + 1) _ (by omega)
      · rw [mergeLoop_skip submitF ids B fuel i c evs hi hlen]
        exact ih (i + B) c evs (by omega)
    · rw [mergeLoop_done submitF ids B fuel i c evs hi]; rfl

/-- With batch size 0 the slice `ids.slice(0, 0)` is empty, the index
never advances, and the loop never finishes, whatever the fuel. -/
theorem mergeLoop_none_of_zero_batch (submitF : Nat → Except Err Digest)
    (ids : List ObjectId) (hlen : 0 < ids.length) :
    ∀ fuel c evs, mergeLoop submitF ids 0 fuel 0 c evs = none := by
  intro fuel
  induction fuel with
  | zero => intro c evs; rfl
  | succ fuel ih =>
    intro c evs
    have hb : ¬ 1 < ((ids.drop 0).take 0).length := by simp
    rw [mergeLoop_skip submitF ids 0 fuel 0 c evs hlen hb]
    exact ih c evs

/-- If the submissions before ordinal `cT` succeed, submission `cT`
throws `e`, and more than `cT - c0` submitting batches remain, the loop
stops with error `e`. -/
theorem mergeLoop_reaches_error (submitF : Nat → Except Err Digest) (ids : List ObjectId)
    (B : Nat) (e : Err) (hB : 0 < B) :
    ∀ fuel i c0 cT evs, ids.length - i < fuel → c0 ≤ cT →
      cT - c0 < (batches B (ids.drop i)).countP (fun b => 1 < b.length) →
      (∀ n, c0 ≤ n → n < cT → (submitF n).isOk = true) →
      submitF cT = .error e →
      mergeLoop submitF ids B fuel i c0 evs = some (.error e) := by
  intro fuel
  induction fuel with
  | zero => intro i c0 cT evs h; omega
  | succ fuel ih =>
    intro i c0 cT evs hf hle hcount hok herr
    by_cases hi : i < ids.length
    · have hdropne : ids.drop i ≠ [] := by
        intro h0
        have := List.drop_eq_nil_iff.mp h0
        omega
      rw [batches_eq_cons B hB (ids.drop i) hdropne, List.drop_drop, List.countP_cons]
        at hcount
      by_cases hlen : 1 < ((ids.drop i).take B).length
      · by_cases hc : c0 = cT
        · subst hc
          exact mergeLoop_submit_err submitF ids B fuel i c0 evs e hi hlen herr
        · have hc0 : c0 < cT := by omega
          have hok0 := hok c0 le_rfl hc0
          cases hs : submitF c0 with
          | error e' => rw [hs] at hok0; simp [Except.isOk, Except.toBool] at hok0
          | ok d =>
            rw [mergeLoop_submit_ok submitF ids B fuel i c0 evs d hi hlen hs]
            refine ih (i + B) (c0 + 1) cT _ (by omega) (by omega) ?_
              (fun n h1 h2 => hok n (by omega) h2) herr
            rw [decide_eq_true hlen] at hcount
            simp at hcount
            omega
      · rw [mergeLoop_skip submitF ids B fuel i c0 evs hi hlen]
        refine ih (i + B) c0 cT evs (by omega) hle ?_ hok herr
        rw [decide_eq_false hlen] at hcount
        simp at hcount
        omega
    · exfalso
      have hnil : ids.drop i = [] := List.drop_eq_nil_iff.mpr (by omega)
      rw [hnil] at hcount
      simp [batches] at hcount

/-! Lemmas about the driver loop and the process exit code. -/

/-- When the merge runs of the first `d` tokens after `j` succeed and
the one at offset `d` throws, the driver loop processes exactly the
tokens up to and including the failing one and stops with its error. -/
theorem runTokens_stops (outcomes : Nat → Option (Except Err (List MEv))) (e : Err) :
    ∀ d j done, (∀ m, m < d → ∃ evs, outcomes (j + m) = some (.ok evs)) →
      outcomes (j + d) = some (.error e) →
      ∀ k, d < k →
        runTokens outcomes k j done = some (done ++ List.range' j (d + 1), .error e) := by
  intro d
  induction d with
  | zero =>
    intro j done _ herr k hk
    obtain ⟨k', rfl⟩ : ∃ k', k = k' + 1 := ⟨k - 1, by omega⟩
    simp only [Nat.add_zero] at herr
    rw [runTokens, herr]
    simp [List.range']
  | succ d ih =>
    intro j done hok herr k hk
    obtain ⟨k', rfl⟩ : ∃ k', k = k' + 1 := ⟨k - 1, by omega⟩
    obtain ⟨evs, hevs⟩ := hok 0 (by omega)
    simp only [Nat.add_zero] at hevs
    rw [runTokens, hevs]
    rw [ih (j + 1) (done ++ [j])
      (fun m hm => by
        have hsk := hok (m + 1) (by omega)
        rwa [show j + (m + 1) = j + 1 + m by omega] at hsk)
      (by rwa [show j + 1 + d = j + (d + 1) by omega])
      k' (by omega)]
    simp [List.range'_succ, List.append_assoc]

/-- Unfolding `mergeBody` once the Object Lister result is known. -/
theorem mergeBody_eq (server : Nat → Except Err CoinPage) (submitF : Nat → Except Err Digest)
    (B fuel listFuel : Nat) (ids : List ObjectId)
    (hids : getAllTokenObjectIds server listFuel = some ids) :
    mergeBody server submitF B fuel listFuel =
      if ids.length ≤ 1 then some (.ok []) else mergeLoop submitF ids B fuel 0 0 [] := by
  simp only [mergeBody, hids]

/-- The `catch` of `mergeCoinObjects` passes a successful body through. -/
theorem mergeCoinObjects_of_ok (server : Nat → Except Err CoinPage)
    (submitF : Nat → Except Err Digest) (B fuel listFuel : Nat) (evs : List MEv)
    (hbody : mergeBody server submitF B fuel listFuel = some (.ok evs)) :
    mergeCoinObjects server submitF B fuel listFuel = some (.ok evs) := by
  simp only [mergeCoinObjects, hbody]

/-- The `catch` of `mergeCoinObjects` rethrows a failing body's error. -/
theorem mergeCoinObjects_of_err (server : Nat → Except Err CoinPage)
    (submitF : Nat → Except Err Digest) (B fuel listFuel : Nat) (e : Err)
    (hbody : mergeBody server submitF B fuel listFuel = some (.error e)) :
    mergeCoinObjects server submitF B fuel listFuel = some (.error e) := by
  simp only [mergeCoinObjects, hbody]

/-- A run out of fuel passes through `mergeCoinObjects` unchanged. -/
theorem mergeCoinObjects_of_none (server : Nat → Except Err CoinPage)
    (submitF : Nat → Except Err Digest) (B fuel listFuel : Nat)
    (hbody : mergeBody server submitF B fuel listFuel = none) :
    mergeCoinObjects server submitF B fuel listFuel = none := by
  simp only [mergeCoinObjects, hbody]

/-- A successful run of `mergeCoinObjects` on 2 or more fetched ids
produces exactly the trace of the batches of the fetched sequence. -/
theorem merge_run_ok (server : Nat → Except Err CoinPage) (submitF : Nat → Except Err Digest)
    (B fuel listFuel : Nat) (ids : List ObjectId)
    (hids : getAllTokenObjectIds server listFuel = some ids) (hB : 0 < B)
    (hfuel : ids.length < fuel) (hok : ∀ n, (submitF n).isOk = true)
    (h2 : 2 ≤ ids.length) :
    mergeCoinObjects server submitF B fuel listFuel =
      some (.ok (traceOf (batches B ids))) := by
  refine mergeCoinObjects_of_ok server submitF B fuel listFuel _ ?_
  rw [mergeBody_eq server submitF B fuel listFuel ids hids, if_neg (by omega)]
  rw [mergeLoop_run submitF ids B hB hok fuel 0 0 [] (by omega)]
  rw [List.drop_zero, List.nil_append]

/-- Object Lister result against a single sub-cap page that reports no
further pages. -/
theorem getAll_single_page (data : List ObjectId) (hlen : data.length < objectCap) :
    getAllTokenObjectIds (fun _ => .ok ⟨data, false, none⟩) 1 = some data := by
  unfold getAllTokenObjectIds
  rw [fetchCoinPages_succ_ok (fun _ => .ok ⟨data, false, none⟩) 0 0 [] ⟨data, false, none⟩ rfl]
  rw [if_neg (by simp only [List.nil_append]; omega)]
  simp

/-- One batching step on a homogeneous id list. -/
theorem batches_replicate_step (B n : Nat) (a : ObjectId) (hB : 0 < B) (hn : 0 < n) :
    batches B (List.replicate n a) =
      List.replicate (min B n) a :: batches B (List.replicate (n - B) a) := by
  rw [batches_eq_cons B hB _ (by simp; omega)]
  rw [List.take_replicate, List.drop_replicate]

/-! Claim theorems. -/

/-- C1 counterexample: against a server sending 49-item pages that all
announce further pages, the Object Lister returns 5047 identifiers —
more than the 5000 cap.  The source breaks only after appending the
whole page that crossed the cap and never truncates `allCoins`, so the
claimed "never exceeds the 5000 cap" fails. -/
theorem C1_cap_counterexample :
    (getAllTokenObjectIds exServer49 103).map List.length = some 5047 ∧
    objectCap < 5047 := by
  constructor
  · obtain ⟨l, hl, hlen⟩ := exServer49_run 103 0 [] (by norm_num) (by norm_num)
    unfold getAllTokenObjectIds
    rw [hl]
    simp [hlen]
  · norm_num [objectCap]

/-- C1 (amended): enumeration stops when the server reports no further
page or the accumulated count reaches 5000, whichever comes first, but
the entire final page is kept; so with pages of at most the requested 50
items the returned sequence has fewer than 5000 + 50 identifiers —
it can exceed the 5000 cap by up to one page less one item. -/
theorem C1_cap_bound (server : Nat → Except Err CoinPage) (fuel : Nat) (l : List ObjectId)
    (hpages : ∀ n p, server n = .ok p → p.data.length ≤ pageLimit)
    (hres : getAllTokenObjectIds server fuel = some l) :
    l.length < objectCap + pageLimit := by
  unfold getAllTokenObjectIds at hres
  cases hfetch : fetchCoinPages server fuel 0 [] with
  | none => rw [hfetch] at hres; simp at hres
  | some r =>
    cases r with
    | ok coins =>
      rw [hfetch] at hres
      simp only [Option.some.injEq] at hres
      subst hres
      exact fetch_ok_length_lt server hpages fuel 0 [] coins
        (by norm_num [objectCap]) hfetch
    | error e =>
      rw [hfetch] at hres
      simp only [Option.some.injEq] at hres
      subst hres
      norm_num [objectCap, pageLimit]

/-- C1 witness: the amended bound at a one-page two-item server. -/
theorem C1_cap_bound_witness :
    getAllTokenObjectIds exServerEnd 1 = some ["a", "b"] ∧
    (["a", "b"] : List ObjectId).length < objectCap + pageLimit := by
  refine ⟨rfl, ?_⟩
  refine C1_cap_bound exServerEnd 1 ["a", "b"] ?_ rfl
  intro n p hp
  have hpe : p = ⟨["a", "b"], false, none⟩ := (Except.ok.inj hp).symm
  subst hpe
  norm_num [pageLimit]

/-- C4: on any failure of the remote call the Balance Lister returns the
empty list; and whenever the pagination loop of the Object Lister ends
in an error — also mid-pagination, after pages were already accumulated —
the Object Lister returns the empty list, not the accumulated prefix. -/
theorem C4_listers_swallow_errors (e : Err) (server : Nat → Except Err CoinPage)
    (fuel : Nat) (e' : Err) :
    getOwnedTokens (.error e) = [] ∧
    (fetchCoinPages server fuel 0 [] = some (.error e') →
      getAllTokenObjectIds server fuel = some []) := by
  refine ⟨rfl, ?_⟩
  intro h
  unfold getAllTokenObjectIds
  rw [h]

/-- C4 witness: a server whose second request fails after a successful
two-item first page; the partial results are discarded. -/
theorem C4_listers_swallow_errors_witness :
    getOwnedTokens (Except.error "boom") = [] ∧
    getAllTokenObjectIds exServerErr 3 = some [] := by
  have h := C4_listers_swallow_errors "boom" exServerErr 3 "net"
  exact ⟨h.1, h.2 rfl⟩

/-- C10: the pagination loop finishes when every page announcing a
further page carries at least one item (the cap is then reached within
5000 requests), and when some request's page reports no further page;
against a server that forever sends empty pages announcing further
pages it never finishes, whatever the fuel. -/
theorem C10_pagination_termination (server : Nat → Except Err CoinPage)
    (N : Nat) (p : CoinPage) :
    ((∀ n q, server n = .ok q → q.hasNextPage = true → q.data ≠ []) →
      (fetchCoinPages server objectCap 0 []).isSome = true) ∧
    (server N = .ok p → p.hasNextPage = false →
      (fetchCoinPages server (N + 1) 0 []).isSome = true) ∧
    ((∀ n, ∃ c, server n = .ok ⟨[], true, c⟩) →
      ∀ fuel, fetchCoinPages server fuel 0 [] = none) := by
  refine ⟨?_, ?_, ?_⟩
  · intro hgain
    exact fetch_isSome_of_gain server hgain objectCap 0 []
      (by norm_num [objectCap]) (by simp)
  · intro hs hend
    exact fetch_isSome_of_endPage server N 0 [] p (by simpa using hs) hend
  · intro hempty fuel
    exact fetch_none_of_empty server hempty fuel 0 [] (by norm_num [objectCap])

/-- C10 witness: the three termination behaviours at concrete servers —
one-item pages terminate within the cap, a first page without a next
page terminates at once, and empty pages announcing more never
terminate. -/
theorem C10_pagination_termination_witness :
    (fetchCoinPages exServerOne objectCap 0 []).isSome = true ∧
    (fetchCoinPages exServerEnd 1 0 []).isSome = true ∧
    fetchCoinPages exServerEmpty 7 0 [] = none := by
  refine ⟨?_, ?_, ?_⟩
  · refine (C10_pagination_termination exServerOne 0 ⟨["x"], true, none⟩).1 ?_
    intro n q hq _
    have hqe : q = ⟨["x"], true, none⟩ := (Except.ok.inj hq).symm
    subst hqe
    simp
  · exact (C10_pagination_termination exServerEnd 0 ⟨["a", "b"], false, none⟩).2.1 rfl rfl
  · exact (C10_pagination_termination exServerEmpty 0 ⟨[], true, none⟩).2.2
      (fun n => ⟨none, rfl⟩) 7

/-- C2 counterexample: with batch size 1 and two fetched ids, both
resulting batches have exactly one element — not "at most one, the
final remainder" — and the run submits zero transactions (consistent
with the ceiling formula, since 2 - 2 = 0). -/
theorem C2_submission_count_counterexample :
    batches 1 ["a", "b"] = [["a"], ["b"]] ∧
    (batches 1 ["a", "b"]).countP (fun b => b.length = 1) = 2 ∧
    mergeCoinObjects exServer2 okSubmit 1 3 1 = some (.ok []) := by
  have hb : batches 1 ["a", "b"] = [["a"], ["b"]] := by
    simp [batches]
  refine ⟨hb, by rw [hb]; rfl, rfl⟩

/-- C2 (amended): with the Object Lister returning `N` ids, batch size
`B > 0` and all submissions succeeding: 0 or 1 ids yield a run with no
events; 2 or more yield exactly `⌈N/B⌉` minus the number of one-element
batches submissions; and the one-element batches number at most one —
the final remainder — whenever `B ≥ 2` (for `B = 1` every batch is a
one-element batch). -/
theorem C2_submission_count (server : Nat → Except Err CoinPage)
    (submitF : Nat → Except Err Digest) (B fuel listFuel : Nat) (ids : List ObjectId)
    (hids : getAllTokenObjectIds server listFuel = some ids)
    (hB : 0 < B) (hfuel : ids.length < fuel)
    (hok : ∀ n, (submitF n).isOk = true) :
    (ids.length ≤ 1 → mergeCoinObjects server submitF B fuel listFuel = some (.ok [])) ∧
    (2 ≤ ids.length →
      mergeCoinObjects server submitF B fuel listFuel =
        some (.ok (traceOf (batches B ids))) ∧
      subCount (traceOf (batches B ids)) =
        (ids.length + B - 1) / B - (batches B ids).countP (fun b => b.length = 1)) ∧
    (2 ≤ B → (batches B ids).countP (fun b => b.length = 1) ≤ 1) := by
  refine ⟨?_, ?_, ?_⟩
  · intro hle
    refine mergeCoinObjects_of_ok server submitF B fuel listFuel [] ?_
    rw [mergeBody_eq server submitF B fuel listFuel ids hids, if_pos hle]
  · intro h2
    refine ⟨merge_run_ok server submitF B fuel listFuel ids hids hB hfuel hok h2, ?_⟩
    rw [subCount_traceOf]
    have hne : ∀ b ∈ batches B ids, b ≠ ([] : List ObjectId) := by
      intro b hb
      exact List.length_pos.mp (batches_mem_length B hB ids b hb).1
    rw [countP_big_eq (batches B ids) hne, batches_length B hB ids]
  · intro hB2
    exact countP_one_le_one B hB2 (batches B ids) (batches_dropLast_length B hB ids)

/-- C2 witness: five ids with batch size 2 give batches of sizes
2, 2, 1 and exactly `⌈5/2⌉ - 1 = 2` submissions. -/
theorem C2_submission_count_witness :
    mergeCoinObjects exServer5 okSubmit 2 6 1 =
      some (.ok (traceOf (batches 2 ["a", "b", "c", "d", "e"]))) ∧
    subCount (traceOf (batches 2 ["a", "b", "c", "d", "e"])) = 2 := by
  have h := C2_submission_count exServer5 okSubmit 2 6 1 ["a", "b", "c", "d", "e"]
    rfl (by norm_num) (by norm_num) (fun n => rfl)
  have h2 := h.2.1 (by norm_num)
  refine ⟨h2.1, ?_⟩
  rw [h2.2]
  have hb : batches 2 ["a", "b", "c", "d", "e"] = [["a", "b"], ["c", "d"], ["e"]] := by
    simp [batches]
  rw [hb]
  rfl

/-- C5: when the `cT`-th submission inside the batching loop throws `e`
(all earlier submissions succeeding, with more than `cT` submitting
batches so that the loop reaches it), the `catch` of lines 114-117 logs
and rethrows, and the whole `mergeCoinObjects` call fails with exactly
that error — unlike the Listers, the Batch Merger swallows nothing at
its top level. -/
theorem C5_merger_propagates (server : Nat → Except Err CoinPage)
    (submitF : Nat → Except Err Digest) (B fuel listFuel cT : Nat) (e : Err)
    (ids : List ObjectId)
    (hids : getAllTokenObjectIds server listFuel = some ids)
    (hB : 0 < B) (hfuel : ids.length < fuel) (h2 : 2 ≤ ids.length)
    (hct : cT < (batches B ids).countP (fun b => 1 < b.length))
    (hok : ∀ n, n < cT → (submitF n).isOk = true)
    (herr : submitF cT = .error e) :
    mergeCoinObjects server submitF B fuel listFuel = some (.error e) := by
  refine mergeCoinObjects_of_err server submitF B fuel listFuel e ?_
  rw [mergeBody_eq server submitF B fuel listFuel ids hids, if_neg (by omega)]
  refine mergeLoop_reaches_error submitF ids B e hB fuel 0 0 cT [] (by omega) (by omega)
    ?_ (fun n _ hn => hok n hn) herr
  rw [List.drop_zero]
  simpa using hct

/-- C5 witness: four ids, batch size 2, first submission succeeding and
second throwing; the call fails with the thrown error. -/
theorem C5_merger_propagates_witness :
    mergeCoinObjects exServer4 failSubmit1 2 5 1 = some (Except.error "boom") := by
  refine C5_merger_propagates exServer4 failSubmit1 2 5 1 1 "boom" ["a", "b", "c", "d"]
    rfl (by norm_num) (by norm_num) (by norm_num) ?_ ?_ rfl
  · have hb : batches 2 ["a", "b", "c", "d"] = [["a", "b"], ["c", "d"]] := by
      simp [batches]
    rw [hb]
    norm_num
  · intro n hn
    have hn0 : n = 0 := by omega
    subst hn0
    rfl

/-- C7: in a successful run on 2 or more fetched ids, the batches
concatenate back to the fetched sequence in order, each batch is
nonempty with at most `B` elements, every batch of more than one
element yields exactly one submitted transaction, and that transaction
merges every id of the batch except the first into the first. -/
theorem C7_partition_and_tx (server : Nat → Except Err CoinPage)
    (submitF : Nat → Except Err Digest) (B fuel listFuel : Nat) (ids : List ObjectId)
    (p : ObjectId) (rest : List ObjectId)
    (hids : getAllTokenObjectIds server listFuel = some ids)
    (hB : 0 < B) (hfuel : ids.length < fuel)
    (hok : ∀ n, (submitF n).isOk = true) (h2 : 2 ≤ ids.length) :
    mergeCoinObjects server submitF B fuel listFuel =
      some (.ok (traceOf (batches B ids))) ∧
    (batches B ids).flatten = ids ∧
    (∀ b ∈ batches B ids, 0 < b.length ∧ b.length ≤ B) ∧
    submittedTxs (traceOf (batches B ids)) =
      ((batches B ids).filter (fun b => 1 < b.length)).map buildTx ∧
    buildTx (p :: rest) = rest.map (fun c => (p, c)) := by
  exact ⟨merge_run_ok server submitF B fuel listFuel ids hids hB hfuel hok h2,
    batches_flatten B ids, batches_mem_length B hB ids,
    submittedTxs_traceOf (batches B ids), rfl⟩

/-- C7 witness: five ids with batch size 2; the batches rebuild the
sequence and the built transaction folds the tail into the head. -/
theorem C7_partition_and_tx_witness :
    mergeCoinObjects exServer5 okSubmit 2 6 1 =
      some (.ok (traceOf (batches 2 ["a", "b", "c", "d", "e"]))) ∧
    (batches 2 ["a", "b", "c", "d", "e"]).flatten = ["a", "b", "c", "d", "e"] ∧
    buildTx ["x", "y", "z"] = [("x", "y"), ("x", "z")] := by
  have h := C7_partition_and_tx exServer5 okSubmit 2 6 1 ["a", "b", "c", "d", "e"]
    "x" ["y", "z"] rfl (by norm_num) (by norm_num) (fun n => rfl) (by norm_num)
  exact ⟨h.1, h.2.1, by rw [h.2.2.2.2]; rfl⟩

/-- C9: for positive batch size the batching loop of `mergeCoinObjects`
finishes — fuel one more than the id count suffices — while with batch
size 0 and 2 or more fetched ids the slice `ids.slice(i, i)` is empty,
the index never advances, and the run never finishes, whatever fuel. -/
theorem C9_loop_termination (server : Nat → Except Err CoinPage)
    (submitF : Nat → Except Err Digest) (ids : List ObjectId) (B listFuel fuel : Nat)
    (hids : getAllTokenObjectIds server listFuel = some ids) :
    (0 < B → (mergeCoinObjects server submitF B (ids.length + 1) listFuel).isSome = true) ∧
    (2 ≤ ids.length → mergeCoinObjects server submitF 0 fuel listFuel = none) := by
  constructor
  · intro hB
    by_cases hle : ids.length ≤ 1
    · rw [mergeCoinObjects_of_ok server submitF B (ids.length + 1) listFuel []
        (by rw [mergeBody_eq server submitF B (ids.length + 1) listFuel ids hids, if_pos hle])]
      rfl
    · have hs := mergeLoop_isSome submitF ids B hB (ids.length + 1) 0 0 [] (by omega)
      cases hm : mergeLoop submitF ids B (ids.length + 1) 0 0 [] with
      | none => rw [hm] at hs; simp at hs
      | some r =>
        cases r with
        | ok evs =>
          rw [mergeCoinObjects_of_ok server submitF B (ids.length + 1) listFuel evs
            (by rw [mergeBody_eq server submitF B (ids.length + 1) listFuel ids hids,
              if_neg hle]; exact hm)]
          rfl
        | error e =>
          rw [mergeCoinObjects_of_err server submitF B (ids.length + 1) listFuel e
            (by rw [mergeBody_eq server submitF B (ids.length + 1) listFuel ids hids,
              if_neg hle]; exact hm)]
          rfl
  · intro h2
    refine mergeCoinObjects_of_none server submitF 0 fuel listFuel ?_
    rw [mergeBody_eq server submitF 0 fuel listFuel ids hids, if_neg (by omega)]
    exact mergeLoop_none_of_zero_batch submitF ids (by omega) fuel 0 []

/-- C9 witness: two fetched ids — batch size 1 finishes with fuel 3,
batch size 0 never finishes (shown at fuel 97). -/
theorem C9_loop_termination_witness :
    (mergeCoinObjects exServer2 okSubmit 1 3 1).isSome = true ∧
    mergeCoinObjects exServer2 okSubmit 0 97 1 = none := by
  have h := C9_loop_termination exServer2 okSubmit ["a", "b"] 1 1 97 rfl
  exact ⟨h.1 (by norm_num), h.2 (by norm_num)⟩

/-- Every pause the batching loop records lasts 1000 ms. -/
theorem traceOf_delay_ms (bs : List (List ObjectId)) :
    ∀ ms, MEv.delayed ms ∈ traceOf bs → ms = 1000 := by
  induction bs with
  | nil => intro ms h; simp [traceOf] at h
  | cons b rest ih =>
    intro ms h
    rw [traceOf] at h
    rcases List.mem_append.mp h with h | h
    · by_cases h1 : 1 < b.length
      · rw [if_pos h1] at h
        rcases List.mem_cons.mp h with h | h
        · simp at h
        · by_cases h2 : rest = []
          · rw [if_pos h2] at h; simp at h
          · rw [if_neg h2] at h
            simp at h
            exact h
      · rw [if_neg h1] at h; simp at h
    · exact ih ms h

/-- C6 counterexample: for 501 ids with batch size 500 the single
submitted batch is followed by a 1000 ms pause — a delay after the last
submission.  Line 106 compares `i + batchSize` with the id count, which
still holds when only a skipped one-element remainder batch is left, so
the pause is not only between successive submissions. -/
theorem C6_delay_counterexample :
    mergeCoinObjects exServer501 okSubmit 500 502 1 =
      some (.ok [MEv.submitted (List.replicate 499 ("c", "c")), MEv.delayed 1000]) ∧
    subCount [MEv.submitted (List.replicate 499 ("c", "c")), MEv.delayed 1000] = 1 ∧
    waitCount [MEv.submitted (List.replicate 499 ("c", "c")), MEv.delayed 1000] = 1 := by
  have hids : getAllTokenObjectIds exServer501 1 = some (List.replicate 501 "c") :=
    getAll_single_page (List.replicate 501 "c") (by norm_num [objectCap])
  have hb : batches 500 (List.replicate 501 "c") = [List.replicate 500 "c", ["c"]] := by
    rw [batches_replicate_step 500 501 "c" (by norm_num) (by norm_num)]
    norm_num [batches]
  have htx : buildTx (List.replicate 500 "c") = List.replicate 499 ("c", "c") := by
    rw [show (500 : Nat) = 499 + 1 by norm_num, List.replicate_succ, buildTx,
      List.map_replicate]
  have htr : traceOf [List.replicate 500 "c", ["c"]] =
      [MEv.submitted (List.replicate 499 ("c", "c")), MEv.delayed 1000] := by
    rw [traceOf]
    rw [if_pos (show 1 < (List.replicate 500 "c").length by
      rw [List.length_replicate]; norm_num)]
    rw [if_neg (show ¬ ([["c"]] : List (List ObjectId)) = [] from List.cons_ne_nil _ _)]
    rw [traceOf]
    rw [if_neg (show ¬ 1 < (["c"] : List ObjectId).length by norm_num)]
    rw [traceOf, htx]
    rfl
  have hrun := merge_run_ok exServer501 okSubmit 500 502 1 (List.replicate 501 "c")
    hids (by norm_num) (by simp) (fun n => rfl) (by simp)
  refine ⟨?_, rfl, rfl⟩
  rw [hrun, hb, htr]

/-- C6 (amended): in a successful run on 2 or more fetched ids, a fixed
1000 ms pause follows exactly each submitted batch that is not the final
batch of the partition; so the pauses number the submitted non-final
batches — one fewer than the submissions when the final batch is itself
submitted, but equal to the submissions when the final batch is a
skipped one-element remainder, in which case a pause follows the last
submission. -/
theorem C6_delay_rule (server : Nat → Except Err CoinPage)
    (submitF : Nat → Except Err Digest) (B fuel listFuel : Nat) (ids : List ObjectId)
    (hids : getAllTokenObjectIds server listFuel = some ids)
    (hB : 0 < B) (hfuel : ids.length < fuel)
    (hok : ∀ n, (submitF n).isOk = true) (h2 : 2 ≤ ids.length) :
    mergeCoinObjects server submitF B fuel listFuel =
      some (.ok (traceOf (batches B ids))) ∧
    waitCount (traceOf (batches B ids)) =
      (batches B ids).dropLast.countP (fun b => 1 < b.length) ∧
    subCount (traceOf (batches B ids)) =
      (batches B ids).countP (fun b => 1 < b.length) ∧
    (∀ ms, MEv.delayed ms ∈ traceOf (batches B ids) → ms = 1000) := by
  exact ⟨merge_run_ok server submitF B fuel listFuel ids hids hB hfuel hok h2,
    waitCount_traceOf (batches B ids), subCount_traceOf (batches B ids),
    traceOf_delay_ms (batches B ids)⟩

/-- C6 witness: the 1200-id, batch-size-500 scenario — 3 submissions and
2 pauses. -/
theorem C6_delay_rule_witness :
    mergeCoinObjects exServer1200 okSubmit 500 1201 1 =
      some (.ok (traceOf (batches 500 (List.replicate 1200 "c")))) ∧
    subCount (traceOf (batches 500 (List.replicate 1200 "c"))) = 3 ∧
    waitCount (traceOf (batches 500 (List.replicate 1200 "c"))) = 2 := by
  have hids : getAllTokenObjectIds exServer1200 1 = some (List.replicate 1200 "c") :=
    getAll_single_page (List.replicate 1200 "c") (by norm_num [objectCap])
  have hb : batches 500 (List.replicate 1200 "c") =
      [List.replicate 500 "c", List.replicate 500 "c", List.replicate 200 "c"] := by
    rw [batches_replicate_step 500 1200 "c" (by norm_num) (by norm_num)]
    norm_num
    rw [batches_replicate_step 500 700 "c" (by norm_num) (by norm_num)]
    norm_num
    rw [batches_replicate_step 500 200 "c" (by norm_num) (by norm_num)]
    norm_num [batches]
  have htx500 : buildTx (List.replicate 500 "c") = List.replicate 499 ("c", "c") := by
    rw [show (500 : Nat) = 499 + 1 by norm_num, List.replicate_succ, buildTx,
      List.map_replicate]
  have htx200 : buildTx (List.replicate 200 "c") = List.replicate 199 ("c", "c") := by
    rw [show (200 : Nat) = 199 + 1 by norm_num, List.replicate_succ, buildTx,
      List.map_replicate]
  have h500 : 1 < (List.replicate 500 "c").length := by
    rw [List.length_replicate]; norm_num
  have h200 : 1 < (List.replicate 200 "c").length := by
    rw [List.length_replicate]; norm_num
  have htr : traceOf [List.replicate 500 "c", List.replicate 500 "c", List.replicate 200 "c"] =
      [MEv.submitted (List.replicate 499 ("c", "c")), MEv.delayed 1000,
        MEv.submitted (List.replicate 499 ("c", "c")), MEv.delayed 1000,
        MEv.submitted (List.replicate 199 ("c", "c"))] := by
    rw [traceOf]
    rw [if_pos h500]
    rw [if_neg (show ¬ ([List.replicate 500 "c", List.replicate 200 "c"] :
      List (List ObjectId)) = [] from List.cons_ne_nil _ _)]
    rw [traceOf]
    rw [if_pos h500]
    rw [if_neg (show ¬ ([List.replicate 200 "c"] : List (List ObjectId)) = []
      from List.cons_ne_nil _ _)]
    rw [traceOf]
    rw [if_pos h200]
    rw [if_pos (rfl : ([] : List (List ObjectId)) = [])]
    rw [traceOf, htx500, htx200]
    rfl
  have h := C6_delay_rule exServer1200 okSubmit 500 1201 1 (List.replicate 1200 "c")
    hids (by norm_num) (by simp) (fun n => rfl) (by simp)
  refine ⟨h.1, ?_, ?_⟩
  · rw [hb, htr]; rfl
  · rw [hb, htr]; rfl

/-- C3 counterexample: two owned token types, the first merge run
throwing — the error escapes `main`, yet the process exits 0, not
non-zero: `main().catch(console.error)` at line 151 handles the
rejection (logging it), so the runtime's non-zero exit for unhandled
rejections never applies. -/
theorem C3_exit_counterexample :
    exOutcomesFail0 0 = some (Except.error "boom") ∧
    programExitCode (Except.ok exBal2) exOutcomesFail0 = some 0 := by
  exact ⟨rfl, rfl⟩

/-- C3 (amended): an unhandled error escaping a Batch Merger call stops
the driver loop — exactly the token types up to and including the
failing one are processed, none after it — and the error escapes
`main`; but the process exits 0 both then and on normal completion,
because the `catch(console.error)` handler at line 151 turns the
rejected top-level operation into a handled, fulfilled one. -/
theorem C3_driver_halt_and_exit (bal : Except Err (List Balance))
    (outcomes : Nat → Option (Except Err (List MEv))) (j : Nat) (e : Err) (c : Nat) :
    (j < (getOwnedTokens bal).length →
      (∀ m, m < j → ∃ evs, outcomes m = some (.ok evs)) →
      outcomes j = some (.error e) →
      mainRun bal outcomes = some (List.range' 0 (j + 1), .error e)) ∧
    (programExitCode bal outcomes = some c → c = 0) := by
  constructor
  · intro hj hok herr
    unfold mainRun
    rw [if_neg (by omega)]
    have h := runTokens_stops outcomes e j 0 []
      (fun m hm => by simpa using hok m hm) (by simpa using herr)
      (getOwnedTokens bal).length hj
    simpa using h
  · intro hc
    unfold programExitCode at hc
    cases hm : mainRun bal outcomes with
    | none => rw [hm] at hc; simp at hc
    | some p =>
      rw [hm] at hc
      obtain ⟨done, r⟩ := p
      cases r with
      | ok u =>
        simp [catchConsoleError, processExitCode] at hc
        omega
      | error e' =>
        simp [catchConsoleError, processExitCode] at hc
        omega

/-- C3 witness: the amended behaviour at the concrete failing run — the
driver processes only token 0 and stops with its error, and the exit
code is 0. -/
theorem C3_driver_halt_and_exit_witness :
    mainRun (Except.ok exBal2) exOutcomesFail0 =
      some (List.range' 0 1, Except.error "boom") ∧
    programExitCode (Except.ok exBal2) exOutcomesFail0 = some 0 := by
  have h := C3_driver_halt_and_exit (Except.ok exBal2) exOutcomesFail0 0 "boom" 0
  exact ⟨h.1 (by norm_num [getOwnedTokens, exBal2]) (fun m hm => absurd hm (by omega)) rfl,
    rfl⟩

/-- C8 counterexample: a server response with a zero-balance entry and a
duplicated coin type — `getOwnedTokens` returns `["A", "A"]`: the source
maps `coinType` over the response without deduplicating or filtering
zero balances, so the returned collection has duplicates and contains a
token type held with balance 0. -/
theorem C8_dedup_counterexample :
    getOwnedTokens (Except.ok exBalDup) = ["A", "A"] ∧
    ¬ (getOwnedTokens (Except.ok exBalDup)).Nodup ∧
    Balance.mk "A" 0 ∈ exBalDup ∧ "A" ∈ getOwnedTokens (Except.ok exBalDup) := by
  refine ⟨rfl, by decide, by decide, by decide⟩

/-- C8 (amended): the Balance Lister returns the `coinType` of every
entry of the server response, verbatim and in order — it neither
deduplicates nor filters zero balances; the returned collection is
duplicate-free, and every member comes from a nonzero-balance entry,
exactly when the server response itself has those properties. -/
theorem C8_owned_tokens (bs : List Balance) (e : Err) :
    getOwnedTokens (.ok bs) = bs.map (fun b => b.coinType) ∧
    getOwnedTokens (.error e) = [] ∧
    ((bs.map (fun b => b.coinType)).Nodup → (getOwnedTokens (.ok bs)).Nodup) ∧
    ((∀ b ∈ bs, b.totalBalance ≠ 0) →
      ∀ t ∈ getOwnedTokens (.ok bs), ∃ b ∈ bs, b.coinType = t ∧ b.totalBalance ≠ 0) := by
  refine ⟨rfl, rfl, fun h => h, ?_⟩
  intro hnz t ht
  simp only [getOwnedTokens, List.mem_map] at ht
  obtain ⟨b, hb, rfl⟩ := ht
  exact ⟨b, hb, rfl, hnz b hb⟩

/-- C8 witness: a duplicate-free all-nonzero response passes through
with distinctness preserved. -/
theorem C8_owned_tokens_witness :
    getOwnedTokens (Except.ok exBal2) = ["T1", "T2"] ∧
    (getOwnedTokens (Except.ok exBal2)).Nodup := by
  have h := C8_owned_tokens exBal2 "boom"
  exact ⟨rfl, h.2.2.1 (by decide)⟩
